import Mathlib

/-!
Shallow embedding of the milestarcafe server core: the in-memory store
(`MemStorage` in the storage module) and the order-related request handlers
(`registerRoutes` in the routes module), together with the shared schema types.

JavaScript `Map` objects are modelled as insertion-ordered association lists
(`set` keeps the position of an existing key and appends a fresh one;
`values()` iterates in insertion order). `Date` timestamps are modelled as
natural numbers supplied by the caller (the ambient clock). Monetary values
(`doublePrecision` columns) are modelled as rationals: the server performs no
arithmetic on them, only storage and retrieval, so only their identity matters.
-/

/-! ### Schema types (shared schema module) -/

structure User where
  id : Nat
  username : String
  password : String
  name : String
  isAdmin : Bool
  deriving DecidableEq

structure InsertUser where
  username : String
  password : String
  name : String
  isAdmin : Bool
  deriving DecidableEq

structure MenuItem where
  id : Nat
  name : String
  description : String
  price : Rat
  imageUrl : String
  category : String
  deriving DecidableEq

structure InsertMenuItem where
  name : String
  description : String
  price : Rat
  imageUrl : String
  category : String
  deriving DecidableEq

/-- `Partial<InsertMenuItem>`: every field optional (absent fields are `none`). -/
structure MenuItemPatch where
  name : Option String := none
  description : Option String := none
  price : Option Rat := none
  imageUrl : Option String := none
  category : Option String := none
  deriving DecidableEq

/-- An order as stored by `MemStorage.createOrder`. The insert schema for
orders does not pick the `status` column, so the spread
`{ ...order, id, createdAt }` yields an object with no `status` property:
`status` is `none` until `updateOrderStatus` sets it. -/
structure Order where
  id : Nat
  userId : Nat
  customerName : String
  customerPhone : String
  orderType : String
  specialInstructions : Option String
  status : Option String
  subtotal : Rat
  tax : Rat
  total : Rat
  createdAt : Nat
  deriving DecidableEq

structure InsertOrder where
  userId : Nat
  customerName : String
  customerPhone : String
  orderType : String
  specialInstructions : Option String
  subtotal : Rat
  tax : Rat
  total : Rat
  deriving DecidableEq

structure OrderItem where
  id : Nat
  orderId : Nat
  menuItemId : Nat
  name : String
  price : Rat
  quantity : Int
  deriving DecidableEq

structure InsertOrderItem where
  orderId : Nat
  menuItemId : Nat
  name : String
  price : Rat
  quantity : Int
  deriving DecidableEq

/-! ### JavaScript `Map` model -/

/-- A JavaScript `Map` keyed by numbers: an association list in insertion
order. -/
abbrev MapN (α : Type) := List (Nat × α)

/-- `map.get(k)`. -/
def mapGet {α : Type} : MapN α → Nat → Option α
  | [], _ => none
  | (k', v) :: rest, k => if k' = k then some v else mapGet rest k

/-- `map.set(k, v)`: replaces in place if the key exists, appends otherwise. -/
def mapSet {α : Type} : MapN α → Nat → α → MapN α
  | [], k, v => [(k, v)]
  | (k', v') :: rest, k, v =>
    if k' = k then (k, v) :: rest else (k', v') :: mapSet rest k v

/-- `map.delete(k)` (the removal part). -/
def mapDelete {α : Type} : MapN α → Nat → MapN α
  | [], _ => []
  | (k', v) :: rest, k => if k' = k then rest else (k', v) :: mapDelete rest k

/-- `map.delete(k)` (the returned boolean: whether the key was present). -/
def mapHas {α : Type} (m : MapN α) (k : Nat) : Bool :=
  (mapGet m k).isSome

/-- `Array.from(map.values())`, in insertion order. -/
def mapValues {α : Type} (m : MapN α) : List α :=
  m.map Prod.snd

/-! ### MemStorage -/

structure MemStorage where
  users : MapN User
  menuItems : MapN MenuItem
  orders : MapN Order
  orderItems : MapN OrderItem
  userIdCounter : Nat
  menuItemIdCounter : Nat
  orderIdCounter : Nat
  orderItemIdCounter : Nat
  deriving DecidableEq

def MemStorage.getUser (s : MemStorage) (id : Nat) : Option User :=
  mapGet s.users id

def MemStorage.getUserByUsername (s : MemStorage) (username : String) : Option User :=
  (mapValues s.users).find? (fun user => user.username.toLower == username.toLower)

def MemStorage.createUser (s : MemStorage) (insertUser : InsertUser) : User × MemStorage :=
  let id := s.userIdCounter
  let user : User :=
    { id := id, username := insertUser.username, password := insertUser.password,
      name := insertUser.name, isAdmin := insertUser.isAdmin }
  (user, { s with users := mapSet s.users id user, userIdCounter := id + 1 })

def MemStorage.getAllMenuItems (s : MemStorage) : List MenuItem :=
  mapValues s.menuItems

def MemStorage.getMenuItemsByCategory (s : MemStorage) (category : String) : List MenuItem :=
  if category == "all" then s.getAllMenuItems
  else (mapValues s.menuItems).filter (fun item => item.category == category)

def MemStorage.getMenuItem (s : MemStorage) (id : Nat) : Option MenuItem :=
  mapGet s.menuItems id

def MemStorage.createMenuItem (s : MemStorage) (menuItem : InsertMenuItem) :
    MenuItem × MemStorage :=
  let id := s.menuItemIdCounter
  let newMenuItem : MenuItem :=
    { id := id, name := menuItem.name, description := menuItem.description,
      price := menuItem.price, imageUrl := menuItem.imageUrl, category := menuItem.category }
  (newMenuItem,
    { s with menuItems := mapSet s.menuItems id newMenuItem, menuItemIdCounter := id + 1 })

/-- `{ ...existingMenuItem, ...menuItem }`: present patch fields override. -/
def MemStorage.updateMenuItem (s : MemStorage) (id : Nat) (menuItem : MenuItemPatch) :
    Option MenuItem × MemStorage :=
  match mapGet s.menuItems id with
  | none => (none, s)
  | some existingMenuItem =>
    let updatedMenuItem : MenuItem :=
      { id := existingMenuItem.id,
        name := menuItem.name.getD existingMenuItem.name,
        description := menuItem.description.getD existingMenuItem.description,
        price := menuItem.price.getD existingMenuItem.price,
        imageUrl := menuItem.imageUrl.getD existingMenuItem.imageUrl,
        category := menuItem.category.getD existingMenuItem.category }
    (some updatedMenuItem, { s with menuItems := mapSet s.menuItems id updatedMenuItem })

def MemStorage.deleteMenuItem (s : MemStorage) (id : Nat) : Bool × MemStorage :=
  (mapHas s.menuItems id, { s with menuItems := mapDelete s.menuItems id })

/-- The item-insertion loop of `createOrder`: each item gets the next
`orderItemIdCounter` value as id and the parent's `orderId` (overwriting any
caller-supplied `orderId`). Returns the updated map and counter. -/
def insertItemsLoop (m : MapN OrderItem) (ctr : Nat) (orderId : Nat) :
    List InsertOrderItem → MapN OrderItem × Nat
  | [] => (m, ctr)
  | item :: rest =>
    let orderItem : OrderItem :=
      { id := ctr, orderId := orderId, menuItemId := item.menuItemId,
        name := item.name, price := item.price, quantity := item.quantity }
    insertItemsLoop (mapSet m ctr orderItem) (ctr + 1) orderId rest

/-- The order items produced by the loop of `createOrder`, as a list. -/
def mkOrderItems (ctr : Nat) (orderId : Nat) : List InsertOrderItem → List OrderItem
  | [] => []
  | item :: rest =>
    { id := ctr, orderId := orderId, menuItemId := item.menuItemId,
      name := item.name, price := item.price, quantity := item.quantity }
      :: mkOrderItems (ctr + 1) orderId rest

def MemStorage.createOrder (s : MemStorage) (order : InsertOrder)
    (items : List InsertOrderItem) (now : Nat) : Order × MemStorage :=
  let id := s.orderIdCounter
  let newOrder : Order :=
    { id := id, userId := order.userId, customerName := order.customerName,
      customerPhone := order.customerPhone, orderType := order.orderType,
      specialInstructions := order.specialInstructions, status := none,
      subtotal := order.subtotal, tax := order.tax, total := order.total,
      createdAt := now }
  let r := insertItemsLoop s.orderItems s.orderItemIdCounter id items
  (newOrder,
    { s with orders := mapSet s.orders id newOrder, orderIdCounter := id + 1,
             orderItems := r.1, orderItemIdCounter := r.2 })

/-- The sort comparator `(a, b) => b.createdAt.getTime() - a.createdAt.getTime()`:
`a` may come before `b` exactly when `b.createdAt ≤ a.createdAt`. -/
def createdDesc (a b : Order) : Prop :=
  b.createdAt ≤ a.createdAt

instance : DecidableRel createdDesc := fun a b => Nat.decLe b.createdAt a.createdAt

instance : IsTotal Order createdDesc := ⟨fun a b => Nat.le_total b.createdAt a.createdAt⟩

instance : IsTrans Order createdDesc :=
  ⟨fun _ _ _ h1 h2 => Nat.le_trans h2 h1⟩

def MemStorage.getOrdersByUserId (s : MemStorage) (userId : Nat) : List Order :=
  List.insertionSort createdDesc
    ((mapValues s.orders).filter (fun order => order.userId == userId))

def MemStorage.getAllOrders (s : MemStorage) : List Order :=
  List.insertionSort createdDesc (mapValues s.orders)

def MemStorage.getOrderWithItems (s : MemStorage) (orderId : Nat) :
    Option (Order × List OrderItem) :=
  match mapGet s.orders orderId with
  | none => none
  | some order =>
    some (order, (mapValues s.orderItems).filter (fun item => item.orderId == orderId))

def MemStorage.updateOrderStatus (s : MemStorage) (orderId : Nat) (status : String) :
    Option Order × MemStorage :=
  match mapGet s.orders orderId with
  | none => (none, s)
  | some order =>
    let updatedOrder : Order := { order with status := some status }
    (some updatedOrder, { s with orders := mapSet s.orders orderId updatedOrder })

/-! ### The constructor's initial state (default admin user and seeded menu) -/

def emptyStorage : MemStorage :=
  { users := [], menuItems := [], orders := [], orderItems := [],
    userIdCounter := 1, menuItemIdCounter := 1, orderIdCounter := 1,
    orderItemIdCounter := 1 }

def seedMenuItemsList : List InsertMenuItem :=
  [ { name := "Classic Cheeseburger",
      description := "Juicy beef patty with melted cheese, fresh vegetables, and our special sauce.",
      price := 399,
      imageUrl := "https://images.unsplash.com/photo-1568901346375-23c9450c58cd?ixlib=rb-4.0.3&auto=format&fit=crop&w=800&h=500",
      category := "food" },
    { name := "Veggie Pasta Salad",
      description := "Fresh pasta with mixed vegetables, herbs, and light vinaigrette dressing.",
      price := 349,
      imageUrl := "https://images.unsplash.com/photo-1473093295043-cdd812d0e601?ixlib=rb-4.0.3&auto=format&fit=crop&w=800&h=500",
      category := "food" },
    { name := "Crispy Chicken Sandwich",
      description := "Crispy fried chicken breast with lettuce, tomato, and mayo on a toasted bun.",
      price := 369,
      imageUrl := "https://images.unsplash.com/photo-1606755962773-d324e0a13086?ixlib=rb-4.0.3&auto=format&fit=crop&w=800&h=500",
      category := "food" },
    { name := "Berry Smoothie",
      description := "Refreshing blend of mixed berries, yogurt, and honey.",
      price := 249,
      imageUrl := "https://images.unsplash.com/photo-1505252585461-04db1eb84625?ixlib=rb-4.0.3&auto=format&fit=crop&w=800&h=500",
      category := "juice" },
    { name := "Fresh Orange Juice",
      description := "Freshly squeezed orange juice, no added sugar or preservatives.",
      price := 199,
      imageUrl := "https://images.unsplash.com/photo-1600271886742-f049cd451bba?ixlib=rb-4.0.3&auto=format&fit=crop&w=800&h=500",
      category := "juice" },
    { name := "Cafe Latte",
      description := "Espresso with steamed milk and a light layer of foam.",
      price := 179,
      imageUrl := "https://images.unsplash.com/photo-1541167760496-1628856ab772?ixlib=rb-4.0.3&auto=format&fit=crop&w=800&h=500",
      category := "beverage" },
    { name := "Hot Chocolate",
      description := "Rich and creamy hot chocolate topped with whipped cream.",
      price := 159,
      imageUrl := "https://images.unsplash.com/photo-1542990253-0d0f5be5f0ed?ixlib=rb-4.0.3&auto=format&fit=crop&w=800&h=500",
      category := "beverage" } ]

/-- The `MemStorage` constructor: fresh maps and counters, one default admin
user, then the seeded menu items. -/
def initialStorage : MemStorage :=
  let s1 := (emptyStorage.createUser
    { username := "admin@milestar.com", password := "admin123",
      name := "Admin", isAdmin := true }).2
  seedMenuItemsList.foldl (fun s item => (s.createMenuItem item).2) s1

/-! ### Request router (order endpoints of `registerRoutes`) -/

/-- A cart item as sent by the client in `cartItems`. -/
structure CartItem where
  id : Nat
  name : String
  price : Rat
  quantity : Int
  deriving DecidableEq

/-- The `orderDetails` part of a POST /api/orders body, after structural
typing. `userId` is the client-supplied owner, possibly absent; the handler
overwrites it with the authenticated caller's id before validation. -/
structure OrderDetails where
  userId : Option Nat
  customerName : String
  customerPhone : String
  orderType : String
  specialInstructions : Option String
  subtotal : Rat
  tax : Rat
  total : Rat
  deriving DecidableEq

inductive OrdersResponse where
  | badRequest (message : String)
  | created (order : Order)
  deriving DecidableEq

/-- POST /api/orders handler (behind `isAuthenticated`, so `callerId` is the
authenticated user's id). `cartItems = none` models a body whose `cartItems`
is missing or not an array (the guard `!cartItems || !Array.isArray(cartItems)`
treats both alike). On success the order details are re-validated with
`userId` forced to `req.user.id`, each cart item is turned into an insert
order item with `orderId` 0 (overwritten by `createOrder`), and the store's
`createOrder` is called. -/
def postOrders (s : MemStorage) (callerId : Nat) (orderDetails : OrderDetails)
    (cartItems : Option (List CartItem)) (now : Nat) : OrdersResponse × MemStorage :=
  match cartItems with
  | none => (.badRequest "Cart cannot be empty", s)
  | some items =>
    if items.isEmpty then (.badRequest "Cart cannot be empty", s)
    else
      let validatedOrderDetails : InsertOrder :=
        { userId := callerId,
          customerName := orderDetails.customerName,
          customerPhone := orderDetails.customerPhone,
          orderType := orderDetails.orderType,
          specialInstructions := orderDetails.specialInstructions,
          subtotal := orderDetails.subtotal, tax := orderDetails.tax,
          total := orderDetails.total }
      let orderItems : List InsertOrderItem := items.map (fun item =>
        { menuItemId := item.id, name := item.name, price := item.price,
          quantity := item.quantity, orderId := 0 })
      let r := s.createOrder validatedOrderDetails orderItems now
      (.created r.1, r.2)

/-- A JSON body field as the PATCH status handler sees it: absent, present
but not a string, or a string. -/
inductive BodyVal where
  | missing
  | nonString
  | str (s : String)
  deriving DecidableEq

inductive StatusResponse where
  | badRequest (message : String)
  | notFound (message : String)
  | ok (order : Order)
  deriving DecidableEq

def validStatusList : List String := ["new", "preparing", "ready", "completed"]

/-- PATCH /api/orders/:id/status handler (behind `isAdmin`), for a well-formed
numeric `id`. The guard `!status || typeof status !== 'string'` rejects an
absent field, any non-string value (falsy or truthy), and the empty string
(falsy); then membership in the four valid statuses is checked; then the
store's `updateOrderStatus` runs. -/
def patchOrderStatus (s : MemStorage) (id : Nat) (status : BodyVal) :
    StatusResponse × MemStorage :=
  match status with
  | .missing => (.badRequest "Status is required", s)
  | .nonString => (.badRequest "Status is required", s)
  | .str st =>
    if st == "" then (.badRequest "Status is required", s)
    else if st ∉ validStatusList then (.badRequest "Invalid status", s)
    else
      match s.updateOrderStatus id st with
      | (none, _) => (.notFound "Order not found", s)
      | (some updatedOrder, s') => (.ok updatedOrder, s')

/-! ### Registration (spec-modelled) and reachable states -/

/-- Modelled from the spec: the registration route of the authentication
collaborator (the server auth module is not among the given sources; only its
`setupAuth` call site is). Per the spec, users are "Created at registration"
and `username` is "unique, case-insensitive compare": registration refuses a
username that `getUserByUsername` (case-insensitive) already resolves, and
otherwise delegates to `createUser`. -/
def registerUser (s : MemStorage) (insertUser : InsertUser) : Option User × MemStorage :=
  match s.getUserByUsername insertUser.username with
  | some _ => (none, s)
  | none =>
    let r := s.createUser insertUser
    (some r.1, r.2)

/-- Store states reachable from the constructor's state through the
operations the server exposes: registration (users are created only at
registration), menu management, order creation and status update. -/
inductive Reachable : MemStorage → Prop where
  | init : Reachable initialStorage
  | register (s : MemStorage) (iu : InsertUser) :
      Reachable s → Reachable (registerUser s iu).2
  | menuCreate (s : MemStorage) (imi : InsertMenuItem) :
      Reachable s → Reachable (s.createMenuItem imi).2
  | menuUpdate (s : MemStorage) (id : Nat) (p : MenuItemPatch) :
      Reachable s → Reachable (s.updateMenuItem id p).2
  | menuDelete (s : MemStorage) (id : Nat) :
      Reachable s → Reachable (s.deleteMenuItem id).2
  | orderCreate (s : MemStorage) (io : InsertOrder) (items : List InsertOrderItem) (now : Nat) :
      Reachable s → Reachable (s.createOrder io items now).2
  | statusUpdate (s : MemStorage) (id : Nat) (st : String) :
      Reachable s → Reachable (s.updateOrderStatus id st).2

/-! ### Well-formedness invariant -/

/-- Every key of the map is below `n`. -/
def MapKeysBelow {α : Type} (m : MapN α) (n : Nat) : Prop :=
  ∀ p ∈ m, p.1 < n

instance {α : Type} (m : MapN α) (n : Nat) : Decidable (MapKeysBelow m n) :=
  List.decidableBAll _ m

/-- The store invariant: every key is below its entity's counter, and every
stored order item references an already-assigned order id. -/
def WF (s : MemStorage) : Prop :=
  MapKeysBelow s.users s.userIdCounter ∧
  MapKeysBelow s.menuItems s.menuItemIdCounter ∧
  MapKeysBelow s.orders s.orderIdCounter ∧
  MapKeysBelow s.orderItems s.orderItemIdCounter ∧
  ∀ p ∈ s.orderItems, (p.2).orderId < s.orderIdCounter

instance (s : MemStorage) : Decidable (WF s) := by
  unfold WF; infer_instance

/-! ### Map lemmas -/

theorem mapGet_mapSet_self {α : Type} (m : MapN α) (k : Nat) (v : α) :
    mapGet (mapSet m k v) k = some v := by
  induction m with
  | nil => simp [mapSet, mapGet]
  | cons p rest ih =>
    by_cases h : p.1 = k
    · simp [mapSet, mapGet, h]
    · simp [mapSet, mapGet, h, ih]

theorem mapGet_mapSet_ne {α : Type} (m : MapN α) (k k' : Nat) (v : α) (h : k' ≠ k) :
    mapGet (mapSet m k v) k' = mapGet m k' := by
  have hkk : k ≠ k' := fun e => h e.symm
  induction m with
  | nil => simp [mapSet, mapGet, hkk]
  | cons p rest ih =>
    by_cases hp : p.1 = k
    · subst hp
      simp [mapSet, mapGet, hkk]
    · simp [mapSet, mapGet, hp, ih]

theorem mapSet_fresh {α : Type} (m : MapN α) (k : Nat) (v : α)
    (h : ∀ p ∈ m, p.1 ≠ k) : mapSet m k v = m ++ [(k, v)] := by
  induction m with
  | nil => simp [mapSet]
  | cons p rest ih =>
    have hp : p.1 ≠ k := h p (List.mem_cons_self p rest)
    simp only [mapSet, hp, if_false, List.cons_append]
    rw [ih (fun q hq => h q (List.mem_cons_of_mem p hq))]

theorem mem_mapSet {α : Type} (m : MapN α) (k : Nat) (v : α) (p : Nat × α)
    (h : p ∈ mapSet m k v) : p ∈ m ∨ p = (k, v) := by
  induction m with
  | nil => simpa [mapSet] using h
  | cons q rest ih =>
    by_cases hq : q.1 = k
    · rcases List.mem_cons.mp (by simpa [mapSet, hq] using h) with h1 | h1
      · right; exact h1
      · left; exact List.mem_cons_of_mem q h1
    · rcases List.mem_cons.mp (by simpa [mapSet, hq] using h) with h1 | h1
      · left; exact h1 ▸ List.mem_cons_self q rest
      · rcases ih h1 with h2 | h2
        · left; exact List.mem_cons_of_mem q h2
        · right; exact h2

theorem mem_mapDelete {α : Type} (m : MapN α) (k : Nat) (p : Nat × α)
    (h : p ∈ mapDelete m k) : p ∈ m := by
  induction m with
  | nil => simp [mapDelete] at h
  | cons q rest ih =>
    by_cases hq : q.1 = k
    · exact List.mem_cons_of_mem q (by simpa [mapDelete, hq] using h)
    · rcases List.mem_cons.mp (by simpa [mapDelete, hq] using h) with h1 | h1
      · exact h1 ▸ List.mem_cons_self q rest
      · exact List.mem_cons_of_mem q (ih h1)

theorem mapKeysBelow_mono {α : Type} {m : MapN α} {n n' : Nat}
    (h : MapKeysBelow m n) (hn : n ≤ n') : MapKeysBelow m n' :=
  fun p hp => Nat.lt_of_lt_of_le (h p hp) hn

theorem mapKeysBelow_mapSet {α : Type} {m : MapN α} {n : Nat} (k : Nat) (v : α)
    (h : MapKeysBelow m n) (hk : k < n) : MapKeysBelow (mapSet m k v) n := by
  intro p hp
  rcases mem_mapSet m k v p hp with h1 | h1
  · exact h p h1
  · rw [h1]; exact hk

theorem mapKeysBelow_mapDelete {α : Type} {m : MapN α} {n : Nat} (k : Nat)
    (h : MapKeysBelow m n) : MapKeysBelow (mapDelete m k) n :=
  fun p hp => h p (mem_mapDelete m k p hp)

theorem mapValues_append {α : Type} (m l : MapN α) :
    mapValues (m ++ l) = mapValues m ++ mapValues l :=
  List.map_append _ m l

/-! ### Lemmas on the item-insertion loop of `createOrder` -/

theorem length_mkOrderItems (ctr orderId : Nat) (items : List InsertOrderItem) :
    (mkOrderItems ctr orderId items).length = items.length := by
  induction items generalizing ctr with
  | nil => rfl
  | cons item rest ih => simp [mkOrderItems, ih]

theorem mem_mkOrderItems_orderId (ctr orderId : Nat) (items : List InsertOrderItem) :
    ∀ oi ∈ mkOrderItems ctr orderId items, oi.orderId = orderId := by
  induction items generalizing ctr with
  | nil => intro oi h; simp [mkOrderItems] at h
  | cons item rest ih =>
    intro oi h
    rcases List.mem_cons.mp h with h1 | h1
    · rw [h1]
    · exact ih (ctr + 1) oi h1

theorem mem_mkOrderItems_id (ctr orderId : Nat) (items : List InsertOrderItem) :
    ∀ oi ∈ mkOrderItems ctr orderId items, ctr ≤ oi.id ∧ oi.id < ctr + items.length := by
  induction items generalizing ctr with
  | nil => intro oi h; simp [mkOrderItems] at h
  | cons item rest ih =>
    intro oi h
    rcases List.mem_cons.mp h with h1 | h1
    · rw [h1]
      refine ⟨Nat.le_refl ctr, ?_⟩
      simp only [List.length_cons]
      omega
    · have h2 := ih (ctr + 1) oi h1
      refine ⟨Nat.le_of_succ_le h2.1, ?_⟩
      have h3 := h2.2
      simp only [List.length_cons]
      omega

theorem insertItemsLoop_eq (items : List InsertOrderItem) (m : MapN OrderItem)
    (ctr orderId : Nat) (h : MapKeysBelow m ctr) :
    insertItemsLoop m ctr orderId items =
      (m ++ (mkOrderItems ctr orderId items).map (fun oi => (oi.id, oi)),
       ctr + items.length) := by
  induction items generalizing m ctr with
  | nil => simp [insertItemsLoop, mkOrderItems]
  | cons item rest ih =>
    have hfresh : ∀ p ∈ m, p.1 ≠ ctr := fun p hp => Nat.ne_of_lt (h p hp)
    have hbelow : MapKeysBelow (m ++ [(ctr,
        ({ id := ctr, orderId := orderId, menuItemId := item.menuItemId,
           name := item.name, price := item.price,
           quantity := item.quantity } : OrderItem))]) (ctr + 1) := by
      intro p hp
      rcases List.mem_append.mp hp with h1 | h1
      · exact Nat.lt_succ_of_lt (h p h1)
      · rw [List.mem_singleton] at h1
        rw [h1]
        exact Nat.lt_succ_self ctr
    simp only [insertItemsLoop, mapSet_fresh m ctr _ hfresh, ih _ _ hbelow,
      mkOrderItems, List.map_cons, List.length_cons, Prod.mk.injEq,
      List.append_assoc, List.singleton_append, true_and]
    omega

/-- `createOrder` written out: on a store whose order-item keys are below the
counter, the loop appends the new items to the map. -/
theorem createOrder_eq (s : MemStorage) (order : InsertOrder)
    (items : List InsertOrderItem) (now : Nat)
    (h : MapKeysBelow s.orderItems s.orderItemIdCounter) :
    s.createOrder order items now =
      ({ id := s.orderIdCounter, userId := order.userId,
         customerName := order.customerName, customerPhone := order.customerPhone,
         orderType := order.orderType,
         specialInstructions := order.specialInstructions, status := none,
         subtotal := order.subtotal, tax := order.tax, total := order.total,
         createdAt := now },
       { s with
          orders := mapSet s.orders s.orderIdCounter
            { id := s.orderIdCounter, userId := order.userId,
              customerName := order.customerName,
              customerPhone := order.customerPhone, orderType := order.orderType,
              specialInstructions := order.specialInstructions, status := none,
              subtotal := order.subtotal, tax := order.tax, total := order.total,
              createdAt := now },
          orderIdCounter := s.orderIdCounter + 1,
          orderItems := s.orderItems ++
            (mkOrderItems s.orderItemIdCounter s.orderIdCounter items).map
              (fun oi => (oi.id, oi)),
          orderItemIdCounter := s.orderItemIdCounter + items.length }) := by
  simp only [MemStorage.createOrder,
    insertItemsLoop_eq items s.orderItems s.orderItemIdCounter s.orderIdCounter h]

theorem mapValues_pairs (l : List OrderItem) :
    mapValues (l.map (fun oi => (oi.id, oi))) = l := by
  induction l with
  | nil => rfl
  | cons oi rest ih => simp [mapValues] at ih ⊢; exact ih

theorem filter_orderId_drop (m : MapN OrderItem) (n oid : Nat)
    (h : ∀ p ∈ m, (p.2).orderId < n) (hoid : n ≤ oid) :
    (mapValues m).filter (fun item => item.orderId == oid) = [] := by
  apply List.filter_eq_nil_iff.mpr
  intro a ha
  rcases List.mem_map.mp ha with ⟨p, hp, rfl⟩
  have hlt := h p hp
  simp only [beq_iff_eq]
  omega

/-- Shared helper: on a well-formed store, `getOrderWithItems` on the order
returned by `createOrder` yields that order together with exactly the order
items the loop produced. -/
theorem createOrder_getOrderWithItems (s : MemStorage) (order : InsertOrder)
    (items : List InsertOrderItem) (now : Nat) (hwf : WF s) :
    (s.createOrder order items now).2.getOrderWithItems
        (s.createOrder order items now).1.id =
      some ((s.createOrder order items now).1,
        mkOrderItems s.orderItemIdCounter s.orderIdCounter items) := by
  obtain ⟨hu, hm, ho, hoi, href⟩ := hwf
  rw [createOrder_eq s order items now hoi]
  have hfil : (mapValues (s.orderItems ++
      (mkOrderItems s.orderItemIdCounter s.orderIdCounter items).map
        (fun oi => (oi.id, oi)))).filter
        (fun item => item.orderId == s.orderIdCounter) =
      mkOrderItems s.orderItemIdCounter s.orderIdCounter items := by
    rw [mapValues_append, List.filter_append,
      filter_orderId_drop s.orderItems s.orderIdCounter s.orderIdCounter href
        (Nat.le_refl _),
      mapValues_pairs, List.nil_append]
    apply List.filter_eq_self.mpr
    intro a ha
    have horder := mem_mkOrderItems_orderId _ _ _ a ha
    simp [horder]
  simp only [MemStorage.getOrderWithItems, mapGet_mapSet_self, hfil]

/-- Shared helper: the store always reports the order just created under its
id (independent of well-formedness). -/
theorem createOrder_mapGet (s : MemStorage) (order : InsertOrder)
    (items : List InsertOrderItem) (now : Nat) :
    mapGet (s.createOrder order items now).2.orders
        (s.createOrder order items now).1.id =
      some (s.createOrder order items now).1 :=
  mapGet_mapSet_self s.orders s.orderIdCounter _

/-! ### Concrete inputs used by witnesses -/

def insertOrderEx : InsertOrder :=
  { userId := 1, customerName := "Alice", customerPhone := "1234567890",
    orderType := "pickup", specialInstructions := none,
    subtotal := 798, tax := 56, total := 854 }

def insertOrderItemEx : InsertOrderItem :=
  { orderId := 77, menuItemId := 1, name := "Classic Cheeseburger",
    price := 399, quantity := 2 }

def orderDetailsEx : OrderDetails :=
  { userId := some 7, customerName := "Alice", customerPhone := "1234567890",
    orderType := "pickup", specialInstructions := none,
    subtotal := 3, tax := 1, total := 5 }

/-- The order the handler stores for `orderDetailsEx` on the fresh store:
owner forced to caller 42, totals taken verbatim (`5 ≠ 3 + 1`). -/
def orderCreatedEx : Order :=
  { id := 1, userId := 42, customerName := "Alice",
    customerPhone := "1234567890", orderType := "pickup",
    specialInstructions := none, status := none, subtotal := 3,
    tax := 1, total := 5, createdAt := 5 }

def cartItemEx : CartItem :=
  { id := 6, name := "Cafe Latte", price := 179, quantity := 2 }

/-! ### Claims -/

/-- C1: `createOrder(order, items)` with non-empty `items` is atomic from the
caller's point of view: it is a single step of the store, and afterwards
`getOrderWithItems` on the returned order's id yields exactly that order
together with `items.length` order items, each carrying the returned order's
id as `orderId` (any caller-supplied `orderId` is overwritten by the loop). -/
theorem c1_createOrder_atomic (s : MemStorage) (order : InsertOrder)
    (items : List InsertOrderItem) (now : Nat) (hwf : WF s) (hne : items ≠ []) :
    (s.createOrder order items now).2.getOrderWithItems
        (s.createOrder order items now).1.id =
      some ((s.createOrder order items now).1,
        mkOrderItems s.orderItemIdCounter s.orderIdCounter items) ∧
    (mkOrderItems s.orderItemIdCounter s.orderIdCounter items).length = items.length ∧
    ∀ it ∈ mkOrderItems s.orderItemIdCounter s.orderIdCounter items,
      it.orderId = (s.createOrder order items now).1.id := by
  refine ⟨createOrder_getOrderWithItems s order items now hwf,
    length_mkOrderItems _ _ _, ?_⟩
  intro it hit
  exact mem_mkOrderItems_orderId _ _ _ it hit

theorem c1_createOrder_atomic_witness :
    WF initialStorage ∧ ([insertOrderItemEx] ≠ ([] : List InsertOrderItem)) ∧
    (initialStorage.createOrder insertOrderEx [insertOrderItemEx] 5).2.getOrderWithItems
        (initialStorage.createOrder insertOrderEx [insertOrderItemEx] 5).1.id =
      some ((initialStorage.createOrder insertOrderEx [insertOrderItemEx] 5).1,
        mkOrderItems initialStorage.orderItemIdCounter initialStorage.orderIdCounter
          [insertOrderItemEx]) :=
  ⟨by decide, by decide,
    (c1_createOrder_atomic initialStorage insertOrderEx [insertOrderItemEx] 5
      (by decide) (by decide)).1⟩

/-- C2: an accepted POST /api/orders request creates an order whose `userId`
is the authenticated caller's id — the handler re-validates
`{ ...orderDetails, userId: req.user.id }`, so any client-supplied owner in
`orderDetails` (here `orderDetails.userId`) is discarded. -/
theorem c2_userId_forced (s : MemStorage) (callerId : Nat)
    (orderDetails : OrderDetails) (cartItems : Option (List CartItem)) (now : Nat)
    (o : Order) (s' : MemStorage)
    (h : postOrders s callerId orderDetails cartItems now = (.created o, s')) :
    o.userId = callerId := by
  cases cartItems with
  | none => simp [postOrders] at h
  | some items =>
    cases hemp : items.isEmpty with
    | true => simp [postOrders, hemp] at h
    | false =>
      simp only [postOrders, hemp, Bool.false_eq_true, if_false, Prod.mk.injEq,
        OrdersResponse.created.injEq] at h
      rw [← h.1]
      rfl

theorem c2_userId_forced_witness :
    postOrders initialStorage 42 orderDetailsEx (some [cartItemEx]) 5 =
      (.created orderCreatedEx,
       (postOrders initialStorage 42 orderDetailsEx (some [cartItemEx]) 5).2) ∧
    orderCreatedEx.userId = 42 :=
  ⟨rfl,
   c2_userId_forced initialStorage 42 orderDetailsEx (some [cartItemEx]) 5
     orderCreatedEx
     (postOrders initialStorage 42 orderDetailsEx (some [cartItemEx]) 5).2 rfl⟩

/-- C3: the POST /api/orders handler rejects a missing/non-array `cartItems`
(modelled `none`) and an empty one with 400 "Cart cannot be empty", leaving
the store untouched; and whenever it accepts, the cart was non-empty and the
stored order has exactly one order item per cart item (hence at least one). -/
theorem c3_order_has_items (s : MemStorage) (callerId : Nat)
    (orderDetails : OrderDetails) (now : Nat) (hwf : WF s) :
    postOrders s callerId orderDetails none now =
      (.badRequest "Cart cannot be empty", s) ∧
    postOrders s callerId orderDetails (some []) now =
      (.badRequest "Cart cannot be empty", s) ∧
    ∀ items o s',
      postOrders s callerId orderDetails (some items) now = (.created o, s') →
      items ≠ [] ∧ ∃ its, s'.getOrderWithItems o.id = some (o, its) ∧
        its.length = items.length ∧ 1 ≤ its.length := by
  refine ⟨rfl, rfl, ?_⟩
  intro items o s' h
  cases hemp : items.isEmpty with
  | true => simp [postOrders, hemp] at h
  | false =>
    have hne : items ≠ [] := by
      intro he
      rw [he] at hemp
      simp [List.isEmpty] at hemp
    refine ⟨hne, ?_⟩
    simp only [postOrders, hemp, Bool.false_eq_true, if_false, Prod.mk.injEq,
      OrdersResponse.created.injEq] at h
    obtain ⟨ho, hs⟩ := h
    refine ⟨mkOrderItems s.orderItemIdCounter s.orderIdCounter
      (items.map (fun item =>
        { menuItemId := item.id, name := item.name, price := item.price,
          quantity := item.quantity, orderId := 0 })), ?_, ?_, ?_⟩
    · rw [← ho, ← hs]
      exact createOrder_getOrderWithItems s _ _ now hwf
    · rw [length_mkOrderItems, List.length_map]
    · rw [length_mkOrderItems, List.length_map]
      cases items with
      | nil => exact absurd rfl hne
      | cons a l => simp

theorem c3_order_has_items_witness :
    WF initialStorage ∧
    postOrders initialStorage 42 orderDetailsEx none 5 =
      (.badRequest "Cart cannot be empty", initialStorage) ∧
    postOrders initialStorage 42 orderDetailsEx (some []) 5 =
      (.badRequest "Cart cannot be empty", initialStorage) ∧
    ([cartItemEx] ≠ ([] : List CartItem)) :=
  ⟨by decide,
   (c3_order_has_items initialStorage 42 orderDetailsEx 5 (by decide)).1,
   (c3_order_has_items initialStorage 42 orderDetailsEx 5 (by decide)).2.1,
   ((c3_order_has_items initialStorage 42 orderDetailsEx 5 (by decide)).2.2
     [cartItemEx] orderCreatedEx
     (postOrders initialStorage 42 orderDetailsEx (some [cartItemEx]) 5).2 rfl).1⟩

/-- The client-side subtotal the spec prescribes: the sum of
`item.price × item.quantity` over the cart items. -/
def cartSum (items : List CartItem) : Rat :=
  (items.map (fun item => item.price * (item.quantity : Rat))).sum

/-- C4: the handler persists the client-supplied `subtotal`, `tax` and
`total` verbatim, with no recomputation or cross-check — for every accepted
request the stored order carries exactly the supplied values, and in
particular the concrete input `orderDetailsEx` (whose total `5` differs from
`subtotal + tax = 4` and whose subtotal `3` differs from the cart sum `358`)
is accepted and stored with those mismatched values. -/
theorem c4_totals_trusted (s : MemStorage) (callerId : Nat)
    (orderDetails : OrderDetails) (first : CartItem) (rest : List CartItem)
    (now : Nat) :
    (∃ o s', postOrders s callerId orderDetails (some (first :: rest)) now =
        (.created o, s') ∧
      mapGet s'.orders o.id = some o ∧
      o.subtotal = orderDetails.subtotal ∧ o.tax = orderDetails.tax ∧
      o.total = orderDetails.total) ∧
    orderDetailsEx.total ≠ orderDetailsEx.subtotal + orderDetailsEx.tax ∧
    orderDetailsEx.subtotal ≠ cartSum [cartItemEx] ∧
    postOrders initialStorage 42 orderDetailsEx (some [cartItemEx]) 5 =
      (.created orderCreatedEx,
        (postOrders initialStorage 42 orderDetailsEx (some [cartItemEx]) 5).2) ∧
    orderCreatedEx.subtotal = orderDetailsEx.subtotal ∧
    orderCreatedEx.tax = orderDetailsEx.tax ∧
    orderCreatedEx.total = orderDetailsEx.total := by
  refine ⟨⟨_, _, rfl, createOrder_mapGet s _ _ now, rfl, rfl, rfl⟩, ?_, ?_, rfl,
    rfl, rfl, rfl⟩
  · show (5 : Rat) ≠ 3 + 1
    norm_num
  · show (3 : Rat) ≠ cartSum [cartItemEx]
    simp only [cartSum, List.map_cons, List.map_nil, List.sum_cons, List.sum_nil]
    show (3 : Rat) ≠ 179 * ((2 : Int) : Rat) + 0
    norm_num

/-! ### Preservation of the store invariant -/

theorem mapGet_mem {α : Type} (m : MapN α) (k : Nat) (v : α)
    (h : mapGet m k = some v) : (k, v) ∈ m := by
  induction m with
  | nil => simp [mapGet] at h
  | cons p rest ih =>
    by_cases hp : p.1 = k
    · subst hp
      simp only [mapGet, if_true, eq_self_iff_true, Option.some.injEq] at h
      subst h
      exact List.mem_cons_self p rest
    · simp only [mapGet, hp, if_false] at h
      exact List.mem_cons_of_mem p (ih h)

theorem mem_map_pairs (l : List OrderItem) (p : Nat × OrderItem)
    (h : p ∈ l.map (fun oi => (oi.id, oi))) : ∃ oi ∈ l, p = (oi.id, oi) := by
  rcases List.mem_map.mp h with ⟨oi, hoi, hp⟩
  exact ⟨oi, hoi, hp.symm⟩

theorem wf_createUser (s : MemStorage) (hwf : WF s) (iu : InsertUser) :
    WF (s.createUser iu).2 := by
  obtain ⟨hu, hm, ho, hoi, href⟩ := hwf
  exact ⟨mapKeysBelow_mapSet _ _ (mapKeysBelow_mono hu (Nat.le_succ _))
      (Nat.lt_succ_self _), hm, ho, hoi, href⟩

theorem wf_createMenuItem (s : MemStorage) (hwf : WF s) (imi : InsertMenuItem) :
    WF (s.createMenuItem imi).2 := by
  obtain ⟨hu, hm, ho, hoi, href⟩ := hwf
  exact ⟨hu, mapKeysBelow_mapSet _ _ (mapKeysBelow_mono hm (Nat.le_succ _))
      (Nat.lt_succ_self _), ho, hoi, href⟩

theorem wf_createOrder (s : MemStorage) (hwf : WF s) (io : InsertOrder)
    (items : List InsertOrderItem) (now : Nat) :
    WF (s.createOrder io items now).2 := by
  obtain ⟨hu, hm, ho, hoi, href⟩ := hwf
  rw [createOrder_eq s io items now hoi]
  refine ⟨hu, hm,
    mapKeysBelow_mapSet _ _ (mapKeysBelow_mono ho (Nat.le_succ _))
      (Nat.lt_succ_self _), ?_, ?_⟩
  · intro p hp
    rcases List.mem_append.mp hp with h1 | h1
    · exact Nat.lt_of_lt_of_le (hoi p h1) (Nat.le_add_right _ _)
    · rcases mem_map_pairs _ p h1 with ⟨oi, hmem, rfl⟩
      have hid := (mem_mkOrderItems_id _ _ _ oi hmem).2
      simpa using hid
  · intro p hp
    rcases List.mem_append.mp hp with h1 | h1
    · exact Nat.lt_succ_of_lt (href p h1)
    · rcases mem_map_pairs _ p h1 with ⟨oi, hmem, rfl⟩
      have hord := mem_mkOrderItems_orderId _ _ _ oi hmem
      simpa [hord] using Nat.lt_succ_self _

theorem wf_updateMenuItem (s : MemStorage) (hwf : WF s) (id : Nat)
    (p : MenuItemPatch) : WF (s.updateMenuItem id p).2 := by
  obtain ⟨hu, hm, ho, hoi, href⟩ := hwf
  unfold MemStorage.updateMenuItem
  cases hg : mapGet s.menuItems id with
  | none => exact ⟨hu, hm, ho, hoi, href⟩
  | some existing =>
    have hk : id < s.menuItemIdCounter := hm (id, existing) (mapGet_mem _ _ _ hg)
    exact ⟨hu, mapKeysBelow_mapSet _ _ hm hk, ho, hoi, href⟩

theorem wf_deleteMenuItem (s : MemStorage) (hwf : WF s) (id : Nat) :
    WF (s.deleteMenuItem id).2 := by
  obtain ⟨hu, hm, ho, hoi, href⟩ := hwf
  exact ⟨hu, mapKeysBelow_mapDelete _ hm, ho, hoi, href⟩

theorem wf_updateOrderStatus (s : MemStorage) (hwf : WF s) (id : Nat)
    (st : String) : WF (s.updateOrderStatus id st).2 := by
  obtain ⟨hu, hm, ho, hoi, href⟩ := hwf
  unfold MemStorage.updateOrderStatus
  cases hg : mapGet s.orders id with
  | none => exact ⟨hu, hm, ho, hoi, href⟩
  | some existing =>
    have hk : id < s.orderIdCounter := ho (id, existing) (mapGet_mem _ _ _ hg)
    exact ⟨hu, hm, mapKeysBelow_mapSet _ _ ho hk, hoi, href⟩

theorem pairwise_mkOrderItems (ctr orderId : Nat) (items : List InsertOrderItem) :
    List.Pairwise (fun a b => a.id < b.id) (mkOrderItems ctr orderId items) := by
  induction items generalizing ctr with
  | nil => exact List.Pairwise.nil
  | cons item rest ih =>
    refine List.Pairwise.cons ?_ (ih (ctr + 1))
    intro b hb
    have hle := (mem_mkOrderItems_id (ctr + 1) orderId rest b hb).1
    exact Nat.lt_of_succ_le hle

/-- C5: within each entity type, ids are assigned from a per-type counter:
each create returns the current counter value, which is strictly larger than
every id already in that entity's map, and bumps the counter just past it;
the order items created by one `createOrder` have strictly increasing fresh
ids; `deleteMenuItem` leaves the menu counter untouched; and every operation
preserves the invariant, so along any run an id, once assigned, is never
assigned again — even after a deletion. -/
theorem c5_ids_unique_increasing (s : MemStorage) (hwf : WF s)
    (iu : InsertUser) (imi : InsertMenuItem) (io : InsertOrder)
    (items : List InsertOrderItem) (now : Nat) (mid : Nat) (p : MenuItemPatch)
    (oid : Nat) (st : String) :
    ((s.createUser iu).1.id = s.userIdCounter ∧
      (∀ q ∈ s.users, q.1 < (s.createUser iu).1.id) ∧
      (s.createUser iu).2.userIdCounter = (s.createUser iu).1.id + 1) ∧
    ((s.createMenuItem imi).1.id = s.menuItemIdCounter ∧
      (∀ q ∈ s.menuItems, q.1 < (s.createMenuItem imi).1.id) ∧
      (s.createMenuItem imi).2.menuItemIdCounter = (s.createMenuItem imi).1.id + 1) ∧
    ((s.createOrder io items now).1.id = s.orderIdCounter ∧
      (∀ q ∈ s.orders, q.1 < (s.createOrder io items now).1.id) ∧
      (s.createOrder io items now).2.orderIdCounter =
        (s.createOrder io items now).1.id + 1) ∧
    (∀ oi ∈ mkOrderItems s.orderItemIdCounter s.orderIdCounter items,
      ∀ q ∈ s.orderItems, q.1 < oi.id) ∧
    List.Pairwise (fun a b => a.id < b.id)
      (mkOrderItems s.orderItemIdCounter s.orderIdCounter items) ∧
    (s.deleteMenuItem mid).2.menuItemIdCounter = s.menuItemIdCounter ∧
    WF (s.createUser iu).2 ∧ WF (s.createMenuItem imi).2 ∧
    WF (s.createOrder io items now).2 ∧ WF (s.updateMenuItem mid p).2 ∧
    WF (s.deleteMenuItem mid).2 ∧ WF (s.updateOrderStatus oid st).2 := by
  obtain ⟨hu, hm, ho, hoi, href⟩ := hwf
  refine ⟨⟨rfl, fun q hq => hu q hq, rfl⟩, ⟨rfl, fun q hq => hm q hq, rfl⟩,
    ⟨rfl, fun q hq => ho q hq, rfl⟩, ?_, pairwise_mkOrderItems _ _ _, rfl,
    wf_createUser s ⟨hu, hm, ho, hoi, href⟩ iu,
    wf_createMenuItem s ⟨hu, hm, ho, hoi, href⟩ imi,
    wf_createOrder s ⟨hu, hm, ho, hoi, href⟩ io items now,
    wf_updateMenuItem s ⟨hu, hm, ho, hoi, href⟩ mid p,
    wf_deleteMenuItem s ⟨hu, hm, ho, hoi, href⟩ mid,
    wf_updateOrderStatus s ⟨hu, hm, ho, hoi, href⟩ oid st⟩
  intro oi hoi2 q hq
  have hge := (mem_mkOrderItems_id _ _ _ oi hoi2).1
  exact Nat.lt_of_lt_of_le (hoi q hq) hge

def insertMenuItemEx : InsertMenuItem :=
  { name := "Tea", description := "d", price := 150, imageUrl := "u",
    category := "beverage" }

theorem c5_ids_unique_increasing_witness :
    WF initialStorage ∧
    (initialStorage.createMenuItem insertMenuItemEx).1.id =
      initialStorage.menuItemIdCounter ∧
    (initialStorage.deleteMenuItem 3).2.menuItemIdCounter =
      initialStorage.menuItemIdCounter ∧
    WF (initialStorage.createOrder insertOrderEx [insertOrderItemEx] 5).2 :=
  ⟨by decide,
   (c5_ids_unique_increasing initialStorage (by decide)
     { username := "u", password := "p", name := "n", isAdmin := false }
     insertMenuItemEx insertOrderEx [insertOrderItemEx] 5 3 {} 1 "ready").2.1.1,
   (c5_ids_unique_increasing initialStorage (by decide)
     { username := "u", password := "p", name := "n", isAdmin := false }
     insertMenuItemEx insertOrderEx [insertOrderItemEx] 5 3 {} 1 "ready").2.2.2.2.2.1,
   (c5_ids_unique_increasing initialStorage (by decide)
     { username := "u", password := "p", name := "n", isAdmin := false }
     insertMenuItemEx insertOrderEx [insertOrderItemEx] 5 3 {} 1 "ready").2.2.2.2.2.2.2.2.1⟩

/-- The store produced by placing one order on the constructor's state; used
by witnesses. -/
def storageWithOrder : MemStorage :=
  (initialStorage.createOrder insertOrderEx [insertOrderItemEx] 5).2

def orderStoredEx : Order :=
  (initialStorage.createOrder insertOrderEx [insertOrderItemEx] 5).1

/-- C6: for an admin PATCH /api/orders/:id/status with a well-formed id of an
existing order, the request is answered 400 with the store untouched exactly
when the supplied status is missing, not a string, or not one of the four
valid values; and each of the four values succeeds and returns the order with
that status, whatever the order's current status. -/
theorem c6_patch_status_validation (s : MemStorage) (id : Nat) (o : Order)
    (h : mapGet s.orders id = some o) :
    (∀ v : BodyVal,
      (∃ m, patchOrderStatus s id v = (.badRequest m, s)) ↔
        (v = .missing ∨ v = .nonString ∨
          ∃ st, v = .str st ∧ st ∉ validStatusList)) ∧
    ∀ st ∈ validStatusList,
      patchOrderStatus s id (.str st) =
        (.ok { o with status := some st },
         { s with orders :=
             mapSet s.orders id ({ o with status := some st }) }) := by
  constructor
  · intro v
    cases v with
    | missing => simp [patchOrderStatus]
    | nonString => simp [patchOrderStatus]
    | str st =>
      by_cases hv : st ∈ validStatusList
      · have hne : ¬(st = "") := by
          intro he
          rw [he] at hv
          simp [validStatusList] at hv
        constructor
        · intro ⟨m, hm⟩
          simp [patchOrderStatus, hne, hv, MemStorage.updateOrderStatus, h] at hm
        · intro hr
          rcases hr with h1 | h1 | ⟨st', h1, h2⟩
          · exact absurd h1 (by simp)
          · exact absurd h1 (by simp)
          · cases h1
            exact absurd hv h2
      · by_cases he : st = ""
        · subst he
          constructor
          · intro _
            exact Or.inr (Or.inr ⟨"", rfl, hv⟩)
          · intro _
            exact ⟨"Status is required", by simp [patchOrderStatus]⟩
        · constructor
          · intro _
            exact Or.inr (Or.inr ⟨st, rfl, hv⟩)
          · intro _
            exact ⟨"Invalid status", by simp [patchOrderStatus, he, hv]⟩
  · intro st hst
    have hne : ¬(st = "") := by
      intro he
      rw [he] at hst
      simp [validStatusList] at hst
    simp [patchOrderStatus, hne, hst, MemStorage.updateOrderStatus, h]

def orderCompletedEx : Order :=
  { orderStoredEx with status := some "completed" }

theorem c6_patch_status_validation_witness :
    mapGet storageWithOrder.orders 1 = some orderStoredEx ∧
    ("completed" ∈ validStatusList) ∧
    patchOrderStatus storageWithOrder 1 (.str "completed") =
      (.ok orderCompletedEx,
       { storageWithOrder with orders := mapSet storageWithOrder.orders 1 orderCompletedEx }) :=
  ⟨rfl, by decide,
   (c6_patch_status_validation storageWithOrder 1 orderStoredEx rfl).2
     "completed" (by decide)⟩

/-- C7: `updateOrderStatus` on an existing order replaces only that order's
`status`: the updated order keeps every other field, the rest of the orders
map and all other store components are untouched, and the status string is
stored without any validation at this layer (the statement quantifies over an
arbitrary string); on an absent id it returns the not-found sentinel and the
store unchanged. -/
theorem c7_updateOrderStatus_frame (s : MemStorage) (orderId : Nat)
    (status : String) :
    (∀ o, mapGet s.orders orderId = some o →
      (s.updateOrderStatus orderId status).1 =
        some { o with status := some status } ∧
      (s.updateOrderStatus orderId status).2.orders =
        mapSet s.orders orderId { o with status := some status } ∧
      ({ o with status := some status } : Order).id = o.id ∧
      ({ o with status := some status } : Order).userId = o.userId ∧
      ({ o with status := some status } : Order).customerName = o.customerName ∧
      ({ o with status := some status } : Order).customerPhone = o.customerPhone ∧
      ({ o with status := some status } : Order).orderType = o.orderType ∧
      ({ o with status := some status } : Order).specialInstructions =
        o.specialInstructions ∧
      ({ o with status := some status } : Order).subtotal = o.subtotal ∧
      ({ o with status := some status } : Order).tax = o.tax ∧
      ({ o with status := some status } : Order).total = o.total ∧
      ({ o with status := some status } : Order).createdAt = o.createdAt ∧
      (∀ k, k ≠ orderId →
        mapGet (s.updateOrderStatus orderId status).2.orders k =
          mapGet s.orders k) ∧
      (s.updateOrderStatus orderId status).2.users = s.users ∧
      (s.updateOrderStatus orderId status).2.menuItems = s.menuItems ∧
      (s.updateOrderStatus orderId status).2.orderItems = s.orderItems ∧
      (s.updateOrderStatus orderId status).2.userIdCounter = s.userIdCounter ∧
      (s.updateOrderStatus orderId status).2.menuItemIdCounter =
        s.menuItemIdCounter ∧
      (s.updateOrderStatus orderId status).2.orderIdCounter = s.orderIdCounter ∧
      (s.updateOrderStatus orderId status).2.orderItemIdCounter =
        s.orderItemIdCounter) ∧
    (mapGet s.orders orderId = none →
      s.updateOrderStatus orderId status = (none, s)) := by
  constructor
  · intro o ho
    have h1 : s.updateOrderStatus orderId status =
        (some { o with status := some status },
         { s with orders :=
             mapSet s.orders orderId ({ o with status := some status }) }) := by
      simp only [MemStorage.updateOrderStatus, ho]
    refine ⟨by rw [h1], by rw [h1], rfl, rfl, rfl, rfl, rfl, rfl, rfl, rfl,
      rfl, rfl, ?_, by rw [h1], by rw [h1], by rw [h1], by rw [h1], by rw [h1],
      by rw [h1], by rw [h1]⟩
    intro k hk
    rw [h1]
    exact mapGet_mapSet_ne s.orders orderId k _ hk
  · intro ho
    simp only [MemStorage.updateOrderStatus, ho]

theorem c7_updateOrderStatus_frame_witness :
    (storageWithOrder.updateOrderStatus 1 "anything").1 =
      some { orderStoredEx with status := some "anything" } ∧
    storageWithOrder.updateOrderStatus 99 "x" = (none, storageWithOrder) :=
  ⟨((c7_updateOrderStatus_frame storageWithOrder 1 "anything").1
      orderStoredEx rfl).1,
   (c7_updateOrderStatus_frame storageWithOrder 99 "x").2 rfl⟩

/-- C8: menu mutations never touch order history. `updateMenuItem` and
`deleteMenuItem` leave the orders map and the order-items map identical, so
every existing Order and every existing OrderItem (its name, price, quantity,
menuItemId, orderId snapshot fields included) is unchanged and
`getOrderWithItems` returns exactly what it returned before. -/
theorem c8_order_items_immutable (s : MemStorage) (id : Nat) (p : MenuItemPatch)
    (did : Nat) :
    (s.updateMenuItem id p).2.orders = s.orders ∧
    (s.updateMenuItem id p).2.orderItems = s.orderItems ∧
    (s.deleteMenuItem did).2.orders = s.orders ∧
    (s.deleteMenuItem did).2.orderItems = s.orderItems ∧
    (∀ oid, (s.updateMenuItem id p).2.getOrderWithItems oid =
      s.getOrderWithItems oid) ∧
    (∀ oid, (s.deleteMenuItem did).2.getOrderWithItems oid =
      s.getOrderWithItems oid) := by
  have h1 : (s.updateMenuItem id p).2.orders = s.orders := by
    cases hg : mapGet s.menuItems id
    · simp only [MemStorage.updateMenuItem, hg]
    · simp only [MemStorage.updateMenuItem, hg]
  have h2 : (s.updateMenuItem id p).2.orderItems = s.orderItems := by
    cases hg : mapGet s.menuItems id
    · simp only [MemStorage.updateMenuItem, hg]
    · simp only [MemStorage.updateMenuItem, hg]
  refine ⟨h1, h2, rfl, rfl, ?_, ?_⟩
  · intro oid
    unfold MemStorage.getOrderWithItems
    rw [h1, h2]
  · intro oid
    rfl

/-- C9: `getOrdersByUserId u` only returns orders owned by `u`, and both it
and `getAllOrders` return their orders sorted by `createdAt` descending
(newest first), per the comparator `(a, b) => b.createdAt - a.createdAt`. -/
theorem c9_orders_scoped_sorted (s : MemStorage) (u : Nat) :
    (∀ o ∈ s.getOrdersByUserId u, o.userId = u) ∧
    List.Sorted createdDesc (s.getOrdersByUserId u) ∧
    List.Sorted createdDesc s.getAllOrders := by
  refine ⟨?_, ?_, ?_⟩
  · intro o ho
    unfold MemStorage.getOrdersByUserId at ho
    rw [List.mem_insertionSort] at ho
    have hb := (List.mem_filter.mp ho).2
    exact beq_iff_eq.mp hb
  · exact List.sorted_insertionSort createdDesc
      ((mapValues s.orders).filter (fun order => order.userId == u))
  · exact List.sorted_insertionSort createdDesc (mapValues s.orders)

/-! ### Username uniqueness along reachable states -/

theorem updateMenuItem_users_frame (s : MemStorage) (id : Nat) (p : MenuItemPatch) :
    (s.updateMenuItem id p).2.users = s.users ∧
    (s.updateMenuItem id p).2.userIdCounter = s.userIdCounter := by
  constructor
  · cases hg : mapGet s.menuItems id
    · simp only [MemStorage.updateMenuItem, hg]
    · simp only [MemStorage.updateMenuItem, hg]
  · cases hg : mapGet s.menuItems id
    · simp only [MemStorage.updateMenuItem, hg]
    · simp only [MemStorage.updateMenuItem, hg]

theorem updateOrderStatus_users_frame (s : MemStorage) (id : Nat) (st : String) :
    (s.updateOrderStatus id st).2.users = s.users ∧
    (s.updateOrderStatus id st).2.userIdCounter = s.userIdCounter := by
  constructor
  · cases hg : mapGet s.orders id
    · simp only [MemStorage.updateOrderStatus, hg]
    · simp only [MemStorage.updateOrderStatus, hg]
  · cases hg : mapGet s.orders id
    · simp only [MemStorage.updateOrderStatus, hg]
    · simp only [MemStorage.updateOrderStatus, hg]

/-- The users-part invariant: keys below the counter, and pairwise distinct
usernames under case-insensitive comparison. -/
def UsersInv (s : MemStorage) : Prop :=
  MapKeysBelow s.users s.userIdCounter ∧
  List.Pairwise (fun a b => a.username.toLower ≠ b.username.toLower)
    (mapValues s.users)

theorem usersInv_register (s : MemStorage) (iu : InsertUser) (h : UsersInv s) :
    UsersInv (registerUser s iu).2 := by
  obtain ⟨hk, hp⟩ := h
  unfold registerUser
  cases hg : s.getUserByUsername iu.username
  · -- no existing user: createUser appends a fresh entry
    have hfresh : ∀ q ∈ s.users, q.1 ≠ s.userIdCounter :=
      fun q hq => Nat.ne_of_lt (hk q hq)
    have happ := mapSet_fresh s.users s.userIdCounter
      ({ id := s.userIdCounter, username := iu.username, password := iu.password,
         name := iu.name, isAdmin := iu.isAdmin } : User) hfresh
    constructor
    · show MapKeysBelow (mapSet s.users s.userIdCounter _) (s.userIdCounter + 1)
      exact mapKeysBelow_mapSet _ _ (mapKeysBelow_mono hk (Nat.le_succ _))
        (Nat.lt_succ_self _)
    · show List.Pairwise _ (mapValues (mapSet s.users s.userIdCounter _))
      rw [happ, mapValues_append]
      rw [List.pairwise_append]
      refine ⟨hp, List.pairwise_singleton _ _, ?_⟩
      intro a ha b hb
      have hb1 : b = (s.createUser iu).1 := by
        simpa [mapValues] using hb
      rw [hb1]
      unfold MemStorage.getUserByUsername at hg
      have hnone := List.find?_eq_none.mp hg a ha
      intro he
      exact hnone (by simpa using he)
  · exact ⟨hk, hp⟩

/-- On a list whose keys are pairwise distinct, at most one element matches
any fixed key value. -/
theorem filter_key_le_one {α : Type} (key : α → String) (c : String)
    (l : List α) (h : List.Pairwise (fun a b => key a ≠ key b) l) :
    (l.filter (fun a => key a == c)).length ≤ 1 := by
  induction l with
  | nil => simp
  | cons a rest ih =>
    rcases List.pairwise_cons.mp h with ⟨ha, hrest⟩
    by_cases hk : key a = c
    · have hnil : rest.filter (fun b => key b == c) = [] := by
        apply List.filter_eq_nil_iff.mpr
        intro b hb
        have hne := ha b hb
        simp only [beq_iff_eq]
        intro hbc
        exact hne (by rw [hk, hbc])
      simp [List.filter_cons, hk, hnil]
    · simp only [List.filter_cons, beq_iff_eq, hk]
      simpa using ih hrest

theorem reachable_usersInv (s : MemStorage) (h : Reachable s) : UsersInv s := by
  induction h with
  | init =>
    constructor
    · decide
    · have hv : mapValues initialStorage.users =
          [{ id := 1, username := "admin@milestar.com", password := "admin123",
             name := "Admin", isAdmin := true }] := rfl
      rw [hv]
      exact List.pairwise_singleton _ _
  | register s iu _ ih => exact usersInv_register s iu ih
  | menuCreate s imi _ ih => exact ih
  | menuUpdate s id p _ ih =>
    obtain ⟨h1, h2⟩ := updateMenuItem_users_frame s id p
    exact ⟨h2 ▸ h1 ▸ ih.1, h1 ▸ ih.2⟩
  | menuDelete s id _ ih => exact ih
  | orderCreate s io items now _ ih => exact ih
  | statusUpdate s id st _ ih =>
    obtain ⟨h1, h2⟩ := updateOrderStatus_users_frame s id st
    exact ⟨h2 ▸ h1 ▸ ih.1, h1 ▸ ih.2⟩

/-- C10: in every reachable store state (users are created only through
registration, which — modelled from the spec — refuses a username already
resolved case-insensitively by `getUserByUsername`), usernames are pairwise
distinct under case-insensitive comparison, and at most one stored user
matches any queried name, so `getUserByUsername` identifies at most one
user. -/
theorem c10_usernames_unique (s : MemStorage) (h : Reachable s) :
    List.Pairwise (fun a b => a.username.toLower ≠ b.username.toLower)
      (mapValues s.users) ∧
    ∀ name : String, ((mapValues s.users).filter
      (fun user => user.username.toLower == name.toLower)).length ≤ 1 := by
  have hinv := reachable_usersInv s h
  refine ⟨hinv.2, ?_⟩
  intro name
  exact filter_key_le_one (fun u => u.username.toLower) name.toLower
    (mapValues s.users) hinv.2

theorem c10_usernames_unique_witness :
    List.Pairwise (fun a b => a.username.toLower ≠ b.username.toLower)
      (mapValues (registerUser initialStorage
        { username := "bob", password := "pw", name := "Bob",
          isAdmin := false }).2.users) :=
  (c10_usernames_unique (registerUser initialStorage
      { username := "bob", password := "pw", name := "Bob",
        isAdmin := false }).2
    (Reachable.register initialStorage _ Reachable.init)).1
